import Mathlib

/-!
Verification of the jarvis-v3 voice-interaction and alert-notification core.

The definitions below are a shallow embedding of the JavaScript/TypeScript
source files `src/frontend/web/speech.js` (classes `SpeechManager`,
`AlertSystem`) and `src/menubar/src/main/shortcuts.ts` (class
`JarvisWebSocket`).  Strings are modelled as `List Char` (the sources only
manipulate ASCII text in the verified paths), JS `Set` as a duplicate-free
`List`, timers as explicit option-valued fields, and the single-threaded
asynchronous control flow as explicit state-transition functions.
-/

namespace Jarvis

/-- JS strings are modelled as lists of characters. -/
abbrev Str := List Char

/-- ASCII whitespace, the fragment of the JS `String.prototype.trim`
whitespace class relevant to the verified inputs. -/
def isWs (c : Char) : Bool := c = ' ' || c = '\t' || c = '\n' || c = '\r'

/-- Remove leading whitespace. -/
def trimLeft (s : Str) : Str := s.dropWhile isWs

/-- Remove trailing whitespace. -/
def trimRight (s : Str) : Str := (s.reverse.dropWhile isWs).reverse

/-- JS `s.trim()`: remove leading and trailing whitespace. -/
def trim (s : Str) : Str := trimRight (trimLeft s)

/-- JS `s.toLowerCase()` on ASCII input. -/
def lowerStr (s : Str) : Str := s.map Char.toLower

lemma dropWhile_dropWhile (p : Char → Bool) (l : Str) :
    (l.dropWhile p).dropWhile p = l.dropWhile p := by
  induction l with
  | nil => simp
  | cons c rest ih =>
    by_cases h : p c <;> simp [List.dropWhile_cons, h, ih]

lemma head_dropWhile (p : Char → Bool) :
    ∀ (l : Str) (c : Char) (cs : Str), l.dropWhile p = c :: cs → p c = false := by
  intro l
  induction l with
  | nil => intro c cs h; simp at h
  | cons d rest ih =>
    intro c cs h
    by_cases hd : p d
    · simp [List.dropWhile_cons, hd] at h
      exact ih c cs h
    · simp [List.dropWhile_cons, hd] at h
      rw [← h.1]
      simpa using hd

lemma trimRight_prefix (l : Str) : trimRight l <+: l := by
  unfold trimRight
  have h : l.reverse.dropWhile isWs <:+ l.reverse := List.dropWhile_suffix isWs
  have h2 : (l.reverse.dropWhile isWs).reverse <+: l.reverse.reverse := by
    exact (List.reverse_prefix.symm.mp (by simpa using h))
  simpa using h2

lemma trimRight_trimRight (l : Str) : trimRight (trimRight l) = trimRight l := by
  unfold trimRight
  simp [dropWhile_dropWhile]

lemma trimLeft_trim (s : Str) : trimLeft (trim s) = trim s := by
  unfold trim
  rcases h : trimRight (trimLeft s) with _ | ⟨c, cs⟩
  · simp [trimLeft]
  · -- the head of a nonempty prefix of `trimLeft s` is the head of `trimLeft s`
    have hpre : trimRight (trimLeft s) <+: trimLeft s := trimRight_prefix _
    rw [h] at hpre
    obtain ⟨t, ht⟩ := hpre
    have hhead : isWs c = false := by
      have hfix : (trimLeft s).dropWhile isWs = trimLeft s := by
        unfold trimLeft
        exact dropWhile_dropWhile isWs s
      rw [← ht, List.cons_append] at hfix
      cases hws : isWs c with
      | false => rfl
      | true =>
        rw [List.dropWhile_cons, hws] at hfix
        simp only [if_true] at hfix
        have hsub : ((cs ++ t).dropWhile isWs).length ≤ (cs ++ t).length :=
          (List.dropWhile_suffix isWs).sublist.length_le
        have hlen := congrArg List.length hfix
        simp only [List.length_cons] at hlen
        omega
    simp [trimLeft, List.dropWhile_cons, hhead]

lemma trim_trim (s : Str) : trim (trim s) = trim s := by
  have h1 := trimLeft_trim s
  have h2 := trimRight_trimRight (trimLeft s)
  calc trim (trim s) = trimRight (trimLeft (trim s)) := rfl
    _ = trimRight (trim s) := by rw [h1]
    _ = trimRight (trimRight (trimLeft s)) := rfl
    _ = trimRight (trimLeft s) := h2
    _ = trim s := rfl

/-- The backtick character (0x60), written via its code point. -/
def backquote : Char := Char.ofNat 96

/-- The three-backtick fence that delimits a Markdown code block. -/
def fence : Str := [backquote, backquote, backquote]

/-- Scan for the first occurrence of the closing fence; return the remainder
after it.  Implements the lazy `[\s\S]*?` search of the JS fenced-block
regex. -/
def afterFence : Str → Option Str
  | [] => none
  | c :: rest =>
    if fence.isPrefixOf (c :: rest) then some ((c :: rest).drop 3)
    else afterFence rest

/-- Fuelled worker for `stripFenced`.  Every recursive call is on a strictly
shorter list, so fuel equal to the input length never runs out. -/
def stripFencedF : Nat → Str → Str
  | 0, s => s
  | _ + 1, [] => []
  | f + 1, c :: rest =>
    if fence.isPrefixOf (c :: rest) then
      match afterFence ((c :: rest).drop 3) with
      | some r => "code block".toList ++ stripFencedF f r
      | none => c :: stripFencedF f rest
    else c :: stripFencedF f rest

/-- JS replacement of every lazily-matched triple-backtick fenced code block
by the placeholder text "code block" (speech.js:169). -/
def stripFenced (s : Str) : Str := stripFencedF s.length s

/-- Fuelled worker for `stripInline`. -/
def stripInlineF : Nat → Str → Str
  | 0, s => s
  | _ + 1, [] => []
  | f + 1, c :: rest =>
    if c = backquote then
      match rest.dropWhile (fun x => x != backquote) with
      | _ :: tail =>
        if (rest.takeWhile (fun x => x != backquote)).isEmpty then
          c :: stripInlineF f rest
        else stripInlineF f tail
      | [] => c :: stripInlineF f rest
    else c :: stripInlineF f rest

/-- JS removal of every inline code span -- a backtick, one or more
non-backticks, a closing backtick (speech.js:170).  An unmatched or empty
pair is left in place and scanning resumes one character later. -/
def stripInline (s : Str) : Str := stripInlineF s.length s

/-- Fuelled worker for `replaceAll`. -/
def replaceAllF (pat rep : Str) : Nat → Str → Str
  | 0, s => s
  | _ + 1, [] => []
  | f + 1, c :: rest =>
    if pat.isPrefixOf (c :: rest) && !pat.isEmpty then
      rep ++ replaceAllF pat rep f ((c :: rest).drop pat.length)
    else c :: replaceAllF pat rep f rest

/-- JS global `String.replace` with a literal (nonempty) pattern: every
non-overlapping occurrence, scanning left to right, is replaced. -/
def replaceAll (pat rep s : Str) : Str := replaceAllF pat rep s.length s

/-- Fuelled worker for `removeDashRuns`. -/
def removeDashRunsF : Nat → Str → Str
  | 0, s => s
  | _ + 1, [] => []
  | f + 1, c :: rest =>
    if c = '-' then
      if 1 ≤ (rest.takeWhile (fun x => x = '-')).length then
        removeDashRunsF f (rest.dropWhile (fun x => x = '-'))
      else c :: removeDashRunsF f rest
    else c :: removeDashRunsF f rest

/-- JS global replacement of the pattern "two or more hyphens" by the empty
string (speech.js:173): every maximal run of at least two hyphens is
removed. -/
def removeDashRuns (s : Str) : Str := removeDashRunsF s.length s

/-- One character of terminal sentence punctuation (period, exclamation or
question mark), as in the sentence-boundary regex of speech.js:177. -/
def isTerm (c : Char) : Bool := c = '.' || c = '!' || c = '?'

/-- Fuelled worker for `sentMatch`. -/
def sentMatchF : Nat → Str → List Str
  | 0, _ => []
  | _ + 1, [] => []
  | f + 1, c :: rest =>
    if isTerm c then sentMatchF f rest
    else
      let nonterm := (c :: rest).takeWhile (fun x => !isTerm x)
      let rest2 := (c :: rest).dropWhile (fun x => !isTerm x)
      match rest2 with
      | [] => []
      | _ :: _ =>
        (nonterm ++ rest2.takeWhile isTerm) :: sentMatchF f (rest2.dropWhile isTerm)

/-- The list of matches of the sentence-boundary regex of speech.js:177:
each match is a maximal run of non-terminator characters followed by the
run of terminator characters that ends it.  Returns `[]` when the regex has
no match (the JS `match` call returns `null`). -/
def sentMatch (s : Str) : List Str := sentMatchF s.length s

/-- `SpeechManager.splitIntoSentences` (speech.js:166-183): normalize the
text (strip fenced blocks, inline code, `**`, `|`, dash runs, then trim),
split on sentence boundaries falling back to the whole text, trim each unit
and keep only those longer than 10 characters. -/
def splitIntoSentences (text : Str) : List Str :=
  let cleanText :=
    trim (removeDashRuns (replaceAll "|".toList [] (replaceAll "**".toList []
      (stripInline (stripFenced text)))))
  let sentences :=
    match sentMatch cleanText with
    | [] => [cleanText]
    | l => l
  (sentences.map trim).filter (fun s => 10 < s.length)

/-- JS `String.prototype.includes`: substring containment. -/
def containsSub (pat : Str) : Str → Bool
  | [] => pat.isEmpty
  | c :: rest => pat.isPrefixOf (c :: rest) || containsSub pat rest

/-- JS `String.prototype.replace` with a string pattern: only the first
occurrence of `pat` is replaced by `rep`. -/
def replaceFirst (pat rep : Str) : Str → Str
  | [] => []
  | c :: rest =>
    if pat.isPrefixOf (c :: rest) && !pat.isEmpty then
      rep ++ (c :: rest).drop pat.length
    else c :: replaceFirst pat rep rest

/-- The configured wake phrases, in declaration order
(`JARVIS_CONFIG.WAKE_WORDS`, identical to the fallback in speech.js:31). -/
def WAKE_WORDS : List Str :=
  ["jarvis".toList, "hey jarvis".toList, "ok jarvis".toList, "hello jarvis".toList]

/-- The filler alternatives of the regex in speech.js:91, in alternation
order. -/
def FILLERS : List Str :=
  ["please".toList, "can you".toList, "could you".toList, "would you".toList]

/-- JS `command.replace(regexFillers, "").trim()` where the regex matches an
anchored filler word followed by any run of whitespace (speech.js:91).  The
input is already lower-case, so the case-insensitive flag is immaterial. -/
def stripFiller (cmd : Str) : Str :=
  match FILLERS.find? (fun f => f.isPrefixOf cmd) with
  | some f => trim ((cmd.drop f.length).dropWhile isWs)
  | none => trim cmd

/-- `wakeWordRecognition.onresult` (speech.js:79-101): lower-case and trim
the transcript, look for a wake phrase, and on a final transcript strip
every wake word (first occurrence each, in list order) and a leading filler,
then emit `some (command, acknowledgementOnly)` -- or `none` when nothing is
emitted. -/
def wakeOnResult (raw : Str) (isFinal : Bool) : Option (Str × Bool) :=
  let transcript := trim (lowerStr raw)
  let hasWakeWord := WAKE_WORDS.any (fun w => containsSub w transcript)
  if hasWakeWord && isFinal then
    let command := WAKE_WORDS.foldl (fun cmd w => trim (replaceFirst w [] cmd)) transcript
    let command := stripFiller command
    if 2 < command.length then some (command, false)
    else if containsSub "jarvis".toList transcript && command.length ≤ 2 then
      some ([], true)
    else none
  else none

/-- Status of one sentence unit in the audio queue (speech.js:210-250). -/
inductive UStatus
  | pending
  | loading
  | ready
  | played
  | error
deriving DecidableEq, Repr

/-- One queued sentence unit: `{text, audio, status}` (speech.js:210-214);
the audio handle itself is external so only its lifecycle is tracked via the
status and the engine's `currentAudio` flag. -/
structure SUnit where
  text : Str
  status : UStatus
deriving DecidableEq, Repr

/-- The outcome the environment assigns to processing one unit: the audio
fetch fails, the fetch succeeds but playback fails, or both succeed. -/
inductive UnitOutcome
  | ok
  | fetchFail
  | playFail
deriving DecidableEq, Repr

/-- Observable events emitted by the synthesis engine, indexed by queue
position. -/
inductive Ev
  | speakStart
  | fetch (i : Nat)
  | play (i : Nat)
  | unitDone (i : Nat)
  | unitError (i : Nat)
  | speakEnd
deriving DecidableEq, Repr

/-- State of the `SpeechManager` synthesis engine (speech.js:14-27). -/
structure EngineState where
  speechEnabled : Bool
  isSpeaking : Bool
  isProcessingQueue : Bool
  audioQueue : List SUnit
  currentAudio : Bool
  wakeWordEnabled : Bool
  wakeResumePending : Bool
deriving DecidableEq, Repr

/-- `resumeWakeWord` (speech.js:403-413): when wake word is enabled, arm the
500ms resume timer.  Arming an already armed timer is observationally the
same timer state. -/
def resumeWakeWord (s : EngineState) : EngineState :=
  if s.wakeWordEnabled then { s with wakeResumePending := true } else s

/-- The sequential `for` loop of `processAudioQueue` (speech.js:230-251):
for each still-pending unit at position `i`, fetch its audio, play it and
await completion, marking it `played`; a fetch or playback failure marks it
`error` and the loop advances.  Returns the emitted events and the final
unit statuses. -/
def runQueue (outcome : Nat → UnitOutcome) : Nat → List SUnit → List Ev × List SUnit
  | _, [] => ([], [])
  | i, u :: rest =>
    let r := runQueue outcome (i + 1) rest
    if u.status = UStatus.pending then
      match outcome i with
      | .fetchFail =>
        (Ev.fetch i :: Ev.unitError i :: r.1, { u with status := .error } :: r.2)
      | .playFail =>
        (Ev.fetch i :: Ev.play i :: Ev.unitError i :: r.1,
          { u with status := .error } :: r.2)
      | .ok =>
        (Ev.fetch i :: Ev.play i :: Ev.unitDone i :: r.1,
          { u with status := .played } :: r.2)
    else (r.1, u :: r.2)

/-- `processAudioQueue` (speech.js:220-260) run to completion without
interruption: the reentrancy guard returns immediately when a drain is
already in flight or the queue is empty; otherwise the queue is drained in
order and the engine is reset to idle, emitting a single speech-ended
notification. -/
def processAudioQueue (outcome : Nat → UnitOutcome) (s : EngineState) :
    EngineState × List Ev :=
  if s.isProcessingQueue || s.audioQueue.isEmpty then (s, [])
  else
    let evs := (runQueue outcome 0 s.audioQueue).1
    let s1 := { s with isProcessingQueue := false, isSpeaking := false,
                       audioQueue := [], currentAudio := false }
    (resumeWakeWord s1, Ev.speakStart :: evs ++ [Ev.speakEnd])

/-- `stopSpeaking` (speech.js:334-355): clear the queue and the processing
flag, halt and drop the current audio handle, cancel browser synthesis
(external), emit the speech-ended notification exactly when a run was
active, then resume wake word.  The boolean result records whether the
notification was emitted. -/
def stopSpeaking (s : EngineState) : EngineState × Bool :=
  let s1 := { s with audioQueue := ([] : List SUnit), isProcessingQueue := false,
                     currentAudio := false }
  if s1.isSpeaking then (resumeWakeWord { s1 with isSpeaking := false }, true)
  else (resumeWakeWord s1, false)

/-- `speak` (speech.js:185-218) followed by its queue drain: stop any
current speech first, return at once when speech output is disabled,
otherwise split the text into sentence units, queue them all as `pending`
and start processing. -/
def speak (outcome : Nat → UnitOutcome) (s : EngineState) (text : Str) :
    EngineState × List Ev :=
  let r := stopSpeaking s
  let evs0 : List Ev := if r.2 then [Ev.speakEnd] else []
  if !r.1.speechEnabled then (r.1, evs0)
  else
    let sentences := splitIntoSentences text
    if sentences.isEmpty then (r.1, evs0)
    else
      let q := sentences.map (fun t => ({ text := t, status := UStatus.pending } : SUnit))
      let s3 := { r.1 with audioQueue := q }
      let r2 := processAudioQueue outcome s3
      (r2.1, evs0 ++ r2.2)

/-- The queue positions of completion events (a unit played or skipped with
an error), in emission order. -/
def completions (evs : List Ev) : List Nat :=
  evs.filterMap fun e =>
    match e with
    | .unitDone i => some i
    | .unitError i => some i
    | _ => none

/-- The queue position an event refers to, if any. -/
def evIdx : Ev → Option Nat
  | .fetch i => some i
  | .play i => some i
  | .unitDone i => some i
  | .unitError i => some i
  | _ => none

/-- The queue positions of all unit-level events, in emission order. -/
def allIdx (evs : List Ev) : List Nat := evs.filterMap evIdx

/-- The await at which the asynchronous drain loop of `processAudioQueue`
is suspended: at the `await fetchSentenceAudio` of speech.js:237 or at the
`await playSentence` of speech.js:242, in both cases for the unit at queue
position `i`.  `idle` means no drain continuation is pending. -/
inductive DrainCont
  | idle
  | awaitFetch (i : Nat)
  | awaitPlay (i : Nat)
deriving DecidableEq, Repr

/-- The engine together with the pending continuation of one in-flight
drain of `processAudioQueue`.  The JS closure suspended at an `await` is
not cancelled by `stopSpeaking`, so it survives as the `cont` field.  (The
model holds one continuation slot, enough for every execution with at most
one drain in flight.) -/
structure AsyncEngine where
  engine : EngineState
  cont : DrainCont
deriving DecidableEq, Repr

/-- Write a unit status through the captured `item` reference of the drain
loop (speech.js:236-247): the write reaches the live queue while the array
is unchanged; after `stopSpeaking` replaced the queue by `[]` the index is
out of range and the write lands on the detached object, invisible here. -/
def setStatus (q : List SUnit) (i : Nat) (st : UStatus) : List SUnit :=
  match q.get? i with
  | some u => q.set i { u with status := st }
  | none => q

/-- Fuelled worker for `drainLoop`: the loop index only increases, so fuel
`q.length + 1` never runs out. -/
def drainLoopF : Nat → EngineState → Nat → EngineState × DrainCont × List Ev
  | 0, s, _ => (s, DrainCont.idle, [])
  | f + 1, s, j =>
    if hj : j < s.audioQueue.length then
      let item := s.audioQueue.get ⟨j, hj⟩
      if item.status = UStatus.pending then
        let q := s.audioQueue.set j { item with status := UStatus.loading }
        ({ s with audioQueue := q }, DrainCont.awaitFetch j, [Ev.fetch j])
      else
        drainLoopF f s (j + 1)
    else
      let s1 := { s with audioQueue := ([] : List SUnit), isProcessingQueue := false,
                         isSpeaking := false, currentAudio := false }
      (resumeWakeWord s1, DrainCont.idle, [Ev.speakEnd])

/-- The synchronous stretch of the drain loop of `processAudioQueue`
starting at the loop-condition check for index `j` (speech.js:230-259):
skip non-pending units; on a pending unit mark it loading, issue its fetch
and suspend; when the condition fails, run the finalization of
speech.js:253-259 -- reset the engine, emit the speech-ended notification
(unconditionally) and resume wake word. -/
def drainLoop (s : EngineState) (j : Nat) : EngineState × DrainCont × List Ev :=
  drainLoopF (s.audioQueue.length + 1) s j

/-- The interleaving events of the asynchronous engine: a call to
`processAudioQueue`, a call to `stopSpeaking`, and the resolution or
rejection of the awaited fetch and playback promises. -/
inductive AsyncEv
  | startDrain
  | stop
  | fetchOk
  | fetchFail
  | playOk
  | playFail
deriving DecidableEq, Repr

/-- One interleaving step of the engine, as implemented in
speech.js:220-260 and 334-355.  `stop` applies `stopSpeaking` to the engine
fields but leaves any suspended drain continuation in place.  Resolving a
fetch runs `playSentence`, which sets the current audio handle and suspends
at the playback await; a rejection or a playback completion advances the
loop, whose condition is re-read against the current (possibly replaced)
queue. -/
def stepAsync (a : AsyncEngine) : AsyncEv → AsyncEngine × List Ev
  | .startDrain =>
    if a.engine.isProcessingQueue || a.engine.audioQueue.isEmpty then (a, [])
    else
      let s1 := { a.engine with isProcessingQueue := true, isSpeaking := true }
      let r := drainLoop s1 0
      (⟨r.1, r.2.1⟩, Ev.speakStart :: r.2.2)
  | .stop =>
    let r := stopSpeaking a.engine
    (⟨r.1, a.cont⟩, if r.2 then [Ev.speakEnd] else [])
  | .fetchOk =>
    match a.cont with
    | .awaitFetch i =>
      let s1 := { a.engine with
        audioQueue := setStatus a.engine.audioQueue i UStatus.ready,
        currentAudio := true }
      (⟨s1, DrainCont.awaitPlay i⟩, [Ev.play i])
    | _ => (a, [])
  | .fetchFail =>
    match a.cont with
    | .awaitFetch i =>
      let s1 := { a.engine with
        audioQueue := setStatus a.engine.audioQueue i UStatus.error }
      let r := drainLoop s1 (i + 1)
      (⟨r.1, r.2.1⟩, Ev.unitError i :: r.2.2)
    | _ => (a, [])
  | .playOk =>
    match a.cont with
    | .awaitPlay i =>
      let s1 := { a.engine with
        audioQueue := setStatus a.engine.audioQueue i UStatus.played }
      let r := drainLoop s1 (i + 1)
      (⟨r.1, r.2.1⟩, Ev.unitDone i :: r.2.2)
    | _ => (a, [])
  | .playFail =>
    match a.cont with
    | .awaitPlay i =>
      let s1 := { a.engine with
        audioQueue := setStatus a.engine.audioQueue i UStatus.error }
      let r := drainLoop s1 (i + 1)
      (⟨r.1, r.2.1⟩, Ev.unitError i :: r.2.2)
    | _ => (a, [])

/-- Run the asynchronous engine over a sequence of interleaving events,
collecting the emitted events. -/
def runAsync : AsyncEngine → List AsyncEv → AsyncEngine × List Ev
  | a, [] => (a, [])
  | a, e :: rest =>
    let r := stepAsync a e
    let r2 := runAsync r.1 rest
    (r2.1, r.2 ++ r2.2)

/-- One polled alert `{type, message, severity}` (speech.js:1135-1150). -/
structure Alert where
  type : Str
  message : Str
  severity : Str
deriving DecidableEq, Repr

/-- The dedup key `alert.type + ":" + alert.message` (speech.js:1138) --
severity is not part of the key. -/
def alertKey (a : Alert) : Str := a.type ++ ":".toList ++ a.message

/-- JS `Set.prototype.add` on the seen-set, modelled as a duplicate-free
list in insertion order. -/
def addKey (seen : List Str) (k : Str) : List Str :=
  if k ∈ seen then seen else seen ++ [k]

/-- The body of the `newAlerts.forEach` loop (speech.js:1143-1150): record
the key as notified, and show the alert exactly when its severity is
critical or warning.  The accumulator carries the seen-set and the list of
alerts shown so far. -/
def notifyStep (acc : List Str × List Alert) (a : Alert) : List Str × List Alert :=
  let seen := addKey acc.1 (alertKey a)
  if a.severity = "critical".toList ∨ a.severity = "warning".toList then
    (seen, acc.2 ++ [a])
  else (seen, acc.2)

/-- `AlertSystem.checkAlerts` (speech.js:1128-1164) on one successful poll
response: with a nonempty alert list, the new alerts are those whose key is
absent from the seen-set computed before any additions, and each of them is
then recorded and (if severe enough) shown; with an empty list the seen-set
is cleared.  Returns the new seen-set and the alerts shown. -/
def checkAlerts (seen : List Str) (alerts : List Alert) : List Str × List Alert :=
  if alerts.isEmpty then ([], [])
  else
    let newAlerts := alerts.filter (fun a => decide (alertKey a ∉ seen))
    newAlerts.foldl notifyStep (seen, [])

/-- A sequence of poll cycles, each delivering one alert list; the shown
alerts of all cycles are concatenated in order. -/
def processCycles (seen : List Str) : List (List Alert) → List Str × List Alert
  | [] => (seen, [])
  | cycle :: rest =>
    let r1 := checkAlerts seen cycle
    let r2 := processCycles r1.1 rest
    (r2.1, r1.2 ++ r2.2)

/-- How many of the shown alerts carry the given dedup key. -/
def countKey (k : Str) (shown : List Alert) : Nat :=
  (shown.filter (fun a => decide (alertKey a = k))).length

/-- `config.reconnectInterval` (menubar config.ts): the fixed reconnect
delay in milliseconds. -/
def reconnectInterval : Nat := 5000

/-- `config.maxReconnectAttempts` (menubar config.ts). -/
def maxReconnectAttempts : Nat := 10

/-- State of `JarvisWebSocket` (shortcuts.ts:48-54): the attempt counter,
the pending reconnect timer (holding its delay), and the connectivity
flag. -/
structure WSState where
  reconnectAttempts : Nat
  reconnectTimer : Option Nat
  isConnected : Bool
deriving DecidableEq, Repr

/-- The constructor state of `JarvisWebSocket`. -/
def wsInit : WSState :=
  { reconnectAttempts := 0, reconnectTimer := none, isConnected := false }

/-- `scheduleReconnect` (shortcuts.ts:111-126): clear any pending timer;
then, only while the attempt counter is below the maximum, increment it and
arm a timer with the fixed delay. -/
def scheduleReconnect (s : WSState) : WSState :=
  let s1 := { s with reconnectTimer := none }
  if s1.reconnectAttempts < maxReconnectAttempts then
    { s1 with reconnectAttempts := s1.reconnectAttempts + 1,
              reconnectTimer := some reconnectInterval }
  else s1

/-- The `close` handler (shortcuts.ts:82-87): drop connectivity, notify
subscribers (external), schedule a reconnect. -/
def wsOnClose (s : WSState) : WSState :=
  scheduleReconnect { s with isConnected := false }

/-- The `open` handler (shortcuts.ts:65-70): connectivity up and the
attempt counter reset to zero. -/
def wsOnOpen (s : WSState) : WSState :=
  { s with isConnected := true, reconnectAttempts := 0 }

/-- State of the recognition arbitrator half of `SpeechManager`:
availability of the browser recognition objects, the manual-session and
speaking flags, the wake-word enable flag, whether the continuous wake-word
recognition session is currently running, whether a manual `start` call has
been issued and its `onstart` is awaited, and whether the 100ms wake-word
restart timer of `onend` is armed. -/
structure ArbState where
  recognitionAvailable : Bool
  isListening : Bool
  isSpeaking : Bool
  wakeWordEnabled : Bool
  wakeActive : Bool
  manualPending : Bool
  wakeRestartPending : Bool
deriving DecidableEq, Repr

/-- The external calls `startListening` can make, in order. -/
inductive RAction
  | reportError
  | callStopListening
  | wakeStop
  | manualStart
deriving DecidableEq, Repr

/-- The sequence of external calls made by `startListening`
(speech.js:133-155): report an error when recognition is unavailable;
delegate to `stopListening` when already listening; otherwise stop the
wake-word session (when enabled) and then start manual recognition. -/
def startListeningActions (s : ArbState) : List RAction :=
  if !s.recognitionAvailable then [RAction.reportError]
  else if s.isListening then [RAction.callStopListening]
  else (if s.wakeWordEnabled then [RAction.wakeStop] else []) ++ [RAction.manualStart]

/-- Events driving the arbitrator: user calls (`enableWakeWord`,
`startListening`), browser callbacks (`onstart` of the manual recognition,
`onend` of either session) and the firing of the armed 100ms wake restart
timer. -/
inductive AEvent
  | enableWake
  | startListening
  | manualOnstart
  | manualOnend
  | wakeOnend
  | wakeTimer
deriving DecidableEq, Repr

/-- One step of the arbitrator, as implemented in speech.js.
`startListening` (133-155) stops the wake session then starts the manual
one; `wakeWordRecognition.onend` (103-115) arms a 100ms restart timer
whenever wake word is enabled and the engine is not speaking -- the manual
session is not consulted; the timer callback (105-113) re-checks only the
enable flag before restarting.  A successful `recognition.start()` is
modelled as eventually raising `manualOnstart`. -/
def stepArb (s : ArbState) : AEvent → ArbState
  | .enableWake =>
    if !s.recognitionAvailable then s
    else if s.wakeWordEnabled then s
    else { s with wakeWordEnabled := true, wakeActive := true }
  | .startListening =>
    if !s.recognitionAvailable then s
    else if s.isListening then s
    else
      let s1 := if s.wakeWordEnabled then { s with wakeActive := false } else s
      { s1 with manualPending := true }
  | .manualOnstart =>
    if s.manualPending then { s with isListening := true, manualPending := false }
    else s
  | .manualOnend => { s with isListening := false }
  | .wakeOnend =>
    let s1 := { s with wakeActive := false }
    if s1.wakeWordEnabled && !s1.isSpeaking then { s1 with wakeRestartPending := true }
    else s1
  | .wakeTimer =>
    if s.wakeRestartPending then
      if s.wakeWordEnabled then
        { s with wakeActive := true, wakeRestartPending := false }
      else { s with wakeRestartPending := false }
    else s

/-- The arbitrator state at app start: recognition objects constructed,
nothing listening. -/
def arbInit : ArbState :=
  { recognitionAvailable := true, isListening := false, isSpeaking := false,
    wakeWordEnabled := false, wakeActive := false, manualPending := false,
    wakeRestartPending := false }

/-- Run the arbitrator over a sequence of events. -/
def runArb (s : ArbState) (evs : List AEvent) : ArbState := evs.foldl stepArb s

/-- What `wakeWordRecognition.onerror` (speech.js:117-130) does with an
error: whether it logs to the console, whether it invokes the `onError`
callback, and the delay of the restart timer it arms, if any. -/
structure ErrOutput where
  logged : Bool
  surfacedToCaller : Bool
  restartDelay : Option Nat
deriving DecidableEq, Repr

/-- `wakeWordRecognition.onerror` (speech.js:117-130): log unless the error
is no-speech or aborted; arm a 1000ms restart timer unless wake word is
disabled or the error is not-allowed.  No state field is modified and the
`onError` callback is never invoked. -/
def wakeOnError (s : ArbState) (err : Str) : ArbState × ErrOutput :=
  let logged : Bool :=
    if err = "no-speech".toList ∨ err = "aborted".toList then false else true
  let restart : Option Nat :=
    if s.wakeWordEnabled = true ∧ err ≠ "not-allowed".toList then some 1000 else none
  (s, { logged := logged, surfacedToCaller := false, restartDelay := restart })

/-- In a list of actions, no `wakeStop` follows a `manualStart`. -/
def wakeStopPrecedes : List RAction → Bool
  | [] => true
  | RAction.manualStart :: rest => rest.all (fun a => a != RAction.wakeStop)
  | _ :: rest => wakeStopPrecedes rest

/-- The event trace exhibiting simultaneous manual and wake-word listening:
enable wake word, start manual listening (which stops the wake session),
manual recognition starts, the wake session's `onend` fires and arms the
restart timer, the timer fires. -/
def dualTrace : List AEvent :=
  [AEvent.enableWake, AEvent.startListening, AEvent.manualOnstart,
   AEvent.wakeOnend, AEvent.wakeTimer]

/-- An arbitrator state with wake word enabled and active. -/
def arbWake : ArbState :=
  { arbInit with wakeWordEnabled := true, wakeActive := true }

/-- A concrete critical alert used as a witness input. -/
def diskAlert : Alert :=
  { type := "disk".toList, message := "root volume 95 percent full".toList,
    severity := "critical".toList }

/-- The same alert content first reported with a non-notifying severity. -/
def diskAlertInfo : Alert := { diskAlert with severity := "info".toList }

/-- A concrete engine state used as a witness input: two pending units,
idle engine. -/
def engineWit : EngineState :=
  { speechEnabled := true, isSpeaking := false, isProcessingQueue := false,
    audioQueue :=
      [{ text := "first long sentence here.".toList, status := UStatus.pending },
       { text := "second long sentence here!".toList, status := UStatus.pending }],
    currentAudio := false, wakeWordEnabled := false, wakeResumePending := false }

/-- A concrete engine state with speech output disabled and a run active. -/
def engineMuted : EngineState :=
  { speechEnabled := false, isSpeaking := true, isProcessingQueue := true,
    audioQueue := [{ text := "leftover sentence text here.".toList, status := UStatus.loading }],
    currentAudio := true, wakeWordEnabled := true, wakeResumePending := false }

/-- An idle asynchronous engine holding one pending sentence unit. -/
def asyncDemo : AsyncEngine :=
  ⟨{ speechEnabled := true, isSpeaking := false, isProcessingQueue := false,
     audioQueue :=
       [{ text := "a single long sentence to play.".toList, status := UStatus.pending }],
     currentAudio := false, wakeWordEnabled := false, wakeResumePending := false },
   DrainCont.idle⟩

/-- The interleaving in which `stopSpeaking` arrives while the drain awaits
the unit's audio fetch, and the fetch and playback later resolve. -/
def stopMidFetchTrace : List AsyncEv :=
  [AsyncEv.startDrain, AsyncEv.stop, AsyncEv.fetchOk, AsyncEv.playOk]

lemma containsSub_iff (pat s : Str) : containsSub pat s = true ↔ pat <:+: s := by
  induction s with
  | nil => simp [containsSub, List.isEmpty_iff]
  | cons c rest ih =>
    rw [containsSub, Bool.or_eq_true, List.infix_cons_iff, ih,
      List.isPrefixOf_iff_prefix]

lemma wake_contains_jarvis (t : Str) :
    WAKE_WORDS.any (fun w => containsSub w t) = true →
    containsSub "jarvis".toList t = true := by
  intro h
  rw [List.any_eq_true] at h
  obtain ⟨w, hw, hc⟩ := h
  rw [containsSub_iff] at hc ⊢
  have hj : ("jarvis".toList : Str) <:+: w := by
    simp only [WAKE_WORDS, List.mem_cons, List.not_mem_nil, or_false] at hw
    rcases hw with rfl | rfl | rfl | rfl <;> (rw [← containsSub_iff]; decide)
  exact hj.trans hc

/-- Claim C3: segmentation yields zero units only for empty input, and every
yielded unit has trimmed length at least 10.  The first half is false: the
nonempty input "hi." is cleaned to a single candidate unit of length 3,
which the minimum-length filter of speech.js:182 discards, so a nonzero
length input yields zero units. -/
theorem C3_counterexample :
    splitIntoSentences "hi.".toList = [] ∧ "hi.".toList.length ≠ 0 := by
  constructor
  · decide
  · decide

/-- Claim C3 (amended): segmentation yields zero units whenever the input is
empty, and every yielded unit is trimmed with length strictly greater
than 10; a nonempty input may also yield zero units when every candidate
unit is 10 characters or shorter. -/
theorem C3_amended :
    splitIntoSentences [] = [] ∧
    ∀ (t u : Str), u ∈ splitIntoSentences t → 10 < u.length ∧ trim u = u := by
  refine ⟨by decide, ?_⟩
  intro t u hu
  unfold splitIntoSentences at hu
  rw [List.mem_filter] at hu
  obtain ⟨hmem, hlen⟩ := hu
  refine ⟨by simpa using of_decide_eq_true hlen, ?_⟩
  rw [List.mem_map] at hmem
  obtain ⟨v, _, rfl⟩ := hmem
  exact trim_trim v

/-- Witness for `C3_amended` at a concrete nonempty input. -/
theorem C3_amended_witness :
    ("this is a long sentence.".toList ∈
      splitIntoSentences "this is a long sentence.".toList) ∧
    (10 < "this is a long sentence.".toList.length ∧
      trim "this is a long sentence.".toList = "this is a long sentence.".toList) :=
  ⟨by decide, C3_amended.2 "this is a long sentence.".toList _ (by decide)⟩

/-- Claim C4: the transcript "hey jarvis turn on the lights" should yield
the command "turn on the lights".  False: the `forEach` of speech.js:87-89
replaces the first occurrence of each wake word in list order, and the list
starts with "jarvis", so "jarvis" is cut out of the middle and the leading
"hey" survives: the emitted command is "hey  turn on the lights". -/
theorem C4_counterexample :
    wakeOnResult "hey jarvis turn on the lights".toList true =
      some ("hey  turn on the lights".toList, false) ∧
    ("hey  turn on the lights".toList, false) ≠
      ("turn on the lights".toList, false) := by
  constructor
  · decide
  · decide

/-- Claim C4 (amended): on a final transcript containing a wake phrase the
detector removes the first occurrence of each configured wake word in list
order (so for "hey jarvis turn on the lights" the emitted command is
"hey  turn on the lights", acknowledgementOnly false), strips one leading
filler, and emits the residual with acknowledgementOnly false when longer
than 2 characters, else the empty command with acknowledgementOnly true
(so "jarvis" alone acknowledges); whenever a wake phrase is present in a
final transcript, something is always emitted. -/
theorem C4_amended :
    wakeOnResult "hey jarvis turn on the lights".toList true =
      some ("hey  turn on the lights".toList, false) ∧
    wakeOnResult "jarvis".toList true = some ([], true) ∧
    (∀ (t c : Str) (b : Bool), wakeOnResult t true = some (c, b) →
      (b = false → 2 < c.length) ∧ (b = true → c = [])) ∧
    (∀ t : Str,
      WAKE_WORDS.any (fun w => containsSub w (trim (lowerStr t))) = true →
      wakeOnResult t true ≠ none) := by
  refine ⟨by decide, by decide, ?_, ?_⟩
  · intro t c b h
    unfold wakeOnResult at h
    dsimp only at h
    by_cases h1 :
        ((WAKE_WORDS.any fun w => containsSub w (trim (lowerStr t))) && true) = true
    · rw [if_pos h1] at h
      by_cases h2 : 2 < (stripFiller
          (WAKE_WORDS.foldl (fun x w => trim (replaceFirst w [] x))
            (trim (lowerStr t)))).length
      · rw [if_pos h2] at h
        simp only [Option.some.injEq, Prod.mk.injEq] at h
        obtain ⟨hc, hb⟩ := h
        subst hc
        subst hb
        exact ⟨fun _ => h2, fun hb => Bool.noConfusion hb⟩
      · rw [if_neg h2] at h
        by_cases h3 : (containsSub "jarvis".toList (trim (lowerStr t)) &&
            decide ((stripFiller
              (WAKE_WORDS.foldl (fun x w => trim (replaceFirst w [] x))
                (trim (lowerStr t)))).length ≤ 2)) = true
        · rw [if_pos h3] at h
          simp only [Option.some.injEq, Prod.mk.injEq] at h
          obtain ⟨hc, hb⟩ := h
          subst hc
          subst hb
          exact ⟨fun hb => Bool.noConfusion hb, fun _ => rfl⟩
        · rw [if_neg h3] at h
          exact Option.noConfusion h
    · rw [if_neg h1] at h
      exact Option.noConfusion h
  · intro t ha heq
    unfold wakeOnResult at heq
    dsimp only at heq
    rw [ha, Bool.and_self] at heq
    rw [if_pos rfl] at heq
    by_cases h2 : 2 < (stripFiller
        (WAKE_WORDS.foldl (fun x w => trim (replaceFirst w [] x))
          (trim (lowerStr t)))).length
    · rw [if_pos h2] at heq
      exact Option.noConfusion heq
    · rw [if_neg h2] at heq
      have hj := wake_contains_jarvis (trim (lowerStr t)) ha
      have hle : decide ((stripFiller
          (WAKE_WORDS.foldl (fun x w => trim (replaceFirst w [] x))
            (trim (lowerStr t)))).length ≤ 2) = true := by
        simp only [decide_eq_true_eq]
        omega
      rw [hj, hle, Bool.and_self] at heq
      rw [if_pos rfl] at heq
      exact Option.noConfusion heq

/-- Witness for `C4_amended`'s universally quantified emission guarantee at
a concrete transcript. -/
theorem C4_amended_witness :
    (WAKE_WORDS.any
      (fun w => containsSub w (trim (lowerStr "ok jarvis".toList))) = true) ∧
    wakeOnResult "ok jarvis".toList true ≠ none :=
  ⟨by decide, C4_amended.2.2.2 "ok jarvis".toList (by decide)⟩

@[simp] lemma completions_fetch (i : Nat) (l : List Ev) :
    completions (Ev.fetch i :: l) = completions l := rfl

@[simp] lemma completions_play (i : Nat) (l : List Ev) :
    completions (Ev.play i :: l) = completions l := rfl

@[simp] lemma completions_unitDone (i : Nat) (l : List Ev) :
    completions (Ev.unitDone i :: l) = i :: completions l := rfl

@[simp] lemma completions_unitError (i : Nat) (l : List Ev) :
    completions (Ev.unitError i :: l) = i :: completions l := rfl

@[simp] lemma allIdx_fetch (i : Nat) (l : List Ev) :
    allIdx (Ev.fetch i :: l) = i :: allIdx l := rfl

@[simp] lemma allIdx_play (i : Nat) (l : List Ev) :
    allIdx (Ev.play i :: l) = i :: allIdx l := rfl

@[simp] lemma allIdx_unitDone (i : Nat) (l : List Ev) :
    allIdx (Ev.unitDone i :: l) = i :: allIdx l := rfl

@[simp] lemma allIdx_unitError (i : Nat) (l : List Ev) :
    allIdx (Ev.unitError i :: l) = i :: allIdx l := rfl

lemma sorted_cons_same (i : Nat) (l : List Nat)
    (hs : List.Sorted (· ≤ ·) l) (hb : ∀ j ∈ l, i ≤ j) :
    List.Sorted (· ≤ ·) (i :: l) := by
  rw [List.sorted_cons]
  exact ⟨hb, hs⟩

lemma bound_cons (i : Nat) (l : List Nat) (hb : ∀ j ∈ l, i ≤ j) :
    ∀ j ∈ i :: l, i ≤ j := by
  intro j hj
  rcases List.mem_cons.mp hj with rfl | hj
  · exact Nat.le_refl j
  · exact hb j hj

lemma runQueue_completions (o : Nat → UnitOutcome) :
    ∀ (us : List SUnit) (i : Nat), (∀ u ∈ us, u.status = UStatus.pending) →
    completions (runQueue o i us).1 = List.range' i us.length := by
  intro us
  induction us with
  | nil => intro i _; simp [runQueue, completions]
  | cons u rest ih =>
    intro i h
    have hu : u.status = UStatus.pending := h u (List.mem_cons_self u rest)
    have hrest : ∀ v ∈ rest, v.status = UStatus.pending :=
      fun v hv => h v (List.mem_cons_of_mem u hv)
    have hrec := ih (i + 1) hrest
    rw [runQueue]
    rw [if_pos hu]
    cases o i <;> simp [List.range'_succ, hrec]

lemma runQueue_allIdx (o : Nat → UnitOutcome) :
    ∀ (us : List SUnit) (i : Nat),
    List.Sorted (· ≤ ·) (allIdx (runQueue o i us).1) ∧
    ∀ j ∈ allIdx (runQueue o i us).1, i ≤ j := by
  intro us
  induction us with
  | nil => intro i; simp [runQueue, allIdx]
  | cons u rest ih =>
    intro i
    obtain ⟨ihs, ihb⟩ := ih (i + 1)
    have hstep : ∀ j ∈ allIdx (runQueue o (i + 1) rest).1, i ≤ j :=
      fun j hj => Nat.le_of_succ_le (ihb j hj)
    rw [runQueue]
    by_cases hu : u.status = UStatus.pending
    · rw [if_pos hu]
      cases o i
      · -- both fetch and playback succeed: three unit events at position i
        refine ⟨?_, ?_⟩
        · exact sorted_cons_same i _
            (sorted_cons_same i _ (sorted_cons_same i _ ihs hstep)
              (bound_cons i _ hstep))
            (bound_cons i _ (bound_cons i _ hstep))
        · exact bound_cons i _ (bound_cons i _ (bound_cons i _ hstep))
      · -- the fetch fails: two unit events at position i
        refine ⟨?_, ?_⟩
        · exact sorted_cons_same i _
            (sorted_cons_same i _ ihs hstep) (bound_cons i _ hstep)
        · exact bound_cons i _ (bound_cons i _ hstep)
      · -- playback fails: three unit events at position i
        refine ⟨?_, ?_⟩
        · exact sorted_cons_same i _
            (sorted_cons_same i _ (sorted_cons_same i _ ihs hstep)
              (bound_cons i _ hstep))
            (bound_cons i _ (bound_cons i _ hstep))
        · exact bound_cons i _ (bound_cons i _ (bound_cons i _ hstep))
    · rw [if_neg hu]
      exact ⟨ihs, hstep⟩

/-- Claim C1: for every engine state with a fresh (all-pending) queue and no
drain in flight, and every assignment of per-unit fetch/playback outcomes,
the completion events (played or skipped) of `processAudioQueue` are exactly
the queue positions 0, 1, ..., n-1 in that order, and all unit events are
monotone in queue position -- playback order is position-based, never
completion-order-based. -/
theorem C1_playback_order (o : Nat → UnitOutcome) (s : EngineState)
    (h1 : s.isProcessingQueue = false)
    (h2 : ∀ u ∈ s.audioQueue, u.status = UStatus.pending) :
    completions (processAudioQueue o s).2 = List.range s.audioQueue.length ∧
    List.Sorted (· ≤ ·) (allIdx (processAudioQueue o s).2) := by
  unfold processAudioQueue
  rw [h1]
  by_cases he : s.audioQueue.isEmpty
  · rw [if_pos (by simp [he])]
    have hq : s.audioQueue = [] := by simpa using he
    simp [completions, allIdx, hq]
  · rw [if_neg (by simp [he])]
    dsimp only
    have hc := runQueue_completions o s.audioQueue 0 h2
    obtain ⟨hs, _⟩ := runQueue_allIdx o s.audioQueue 0
    constructor
    · simp only [completions, List.filterMap_cons, List.filterMap_append] at hc ⊢
      simp [hc, List.range_eq_range']
    · simp only [allIdx, evIdx, List.filterMap_cons, List.filterMap_append] at hs ⊢
      simpa using hs

/-- Witness for `C1_playback_order` at a concrete two-unit queue with
successful outcomes. -/
theorem C1_playback_order_witness :
    engineWit.isProcessingQueue = false ∧
    (∀ u ∈ engineWit.audioQueue, u.status = UStatus.pending) ∧
    (completions (processAudioQueue (fun _ => UnitOutcome.ok) engineWit).2 =
        List.range engineWit.audioQueue.length ∧
      List.Sorted (· ≤ ·)
        (allIdx (processAudioQueue (fun _ => UnitOutcome.ok) engineWit).2)) :=
  ⟨by decide, by decide,
    C1_playback_order (fun _ => UnitOutcome.ok) engineWit (by decide) (by decide)⟩

/-- Claim C2: the speech-ended notification should fire exactly once per
active run.  False: `stopSpeaking` during the awaited fetch of
speech.js:237 does not cancel the suspended drain; when the fetch resolves,
`playSentence` restarts `currentAudio` and plays the in-flight unit, and
the drain's finalization (speech.js:253-258) emits a second `onSpeakEnd`
for the same run -- the trace below has one speech-start and two
speech-ended emissions, with the audio handle live again after the stop. -/
theorem C2_counterexample :
    (runAsync asyncDemo stopMidFetchTrace).2.count Ev.speakEnd = 2 ∧
    (runAsync asyncDemo stopMidFetchTrace).2.count Ev.speakStart = 1 ∧
    (runAsync asyncDemo
      [AsyncEv.startDrain, AsyncEv.stop, AsyncEv.fetchOk]).1.engine.currentAudio
      = true := by
  refine ⟨?_, ?_, ?_⟩
  · decide
  · decide
  · decide

/-- Claim C2 (amended): each `stopSpeaking` call leaves the queue empty,
the processing flag false, the current audio handle cleared and the engine
idle, emits the speech-ended notification exactly when a run was active,
and an immediate second call changes no state and emits nothing; but
`stopSpeaking` leaves any drain continuation suspended at an await in
place, so when it arrives mid-fetch the resumed drain replays the in-flight
unit and its finalization emits a second speech-ended notification -- the
idle transition can fire twice per active run. -/
theorem C2_amended :
    (∀ s : EngineState,
      (stopSpeaking s).1.audioQueue = [] ∧
      (stopSpeaking s).1.isProcessingQueue = false ∧
      (stopSpeaking s).1.currentAudio = false ∧
      (stopSpeaking s).1.isSpeaking = false ∧
      ((stopSpeaking s).2 = true ↔ s.isSpeaking = true) ∧
      stopSpeaking (stopSpeaking s).1 = ((stopSpeaking s).1, false)) ∧
    (∀ a : AsyncEngine, (stepAsync a AsyncEv.stop).1.cont = a.cont) ∧
    ((runAsync asyncDemo stopMidFetchTrace).2.count Ev.speakEnd = 2 ∧
      (runAsync asyncDemo stopMidFetchTrace).2.count Ev.speakStart = 1) := by
  refine ⟨?_, ?_, by decide, by decide⟩
  · intro s
    obtain ⟨en, sp, pr, q, cur, wk, pend⟩ := s
    cases sp <;> cases wk <;> simp [stopSpeaking, resumeWakeWord]
  · intro a
    rfl

/-- Claim C9: when speech output is disabled, `speak` still performs the
full cancellation (state equals the post-`stopSpeaking` state: queue
cleared, handle dropped) and emits the speech-ended notification exactly
when a run was active, but creates no sentence unit and emits no fetch,
play or completion event. -/
theorem C9_speak_disabled (o : Nat → UnitOutcome) (s : EngineState) (t : Str)
    (h : s.speechEnabled = false) :
    speak o s t = ((stopSpeaking s).1,
      if s.isSpeaking = true then [Ev.speakEnd] else []) ∧
    (speak o s t).1.audioQueue = [] ∧
    (speak o s t).1.currentAudio = false ∧
    (∀ e ∈ (speak o s t).2, e = Ev.speakEnd) := by
  obtain ⟨en, sp, pr, q, cur, wk, pend⟩ := s
  simp only at h
  subst h
  cases sp <;> cases wk <;>
    simp [speak, stopSpeaking, resumeWakeWord]

/-- Witness for `C9_speak_disabled` at a concrete muted state with an
active run. -/
theorem C9_speak_disabled_witness :
    engineMuted.speechEnabled = false ∧
    (speak (fun _ => UnitOutcome.ok) engineMuted "some new answer text.".toList =
        ((stopSpeaking engineMuted).1,
          if engineMuted.isSpeaking = true then [Ev.speakEnd] else []) ∧
      (speak (fun _ => UnitOutcome.ok) engineMuted
          "some new answer text.".toList).1.audioQueue = [] ∧
      (speak (fun _ => UnitOutcome.ok) engineMuted
          "some new answer text.".toList).1.currentAudio = false ∧
      (∀ e ∈ (speak (fun _ => UnitOutcome.ok) engineMuted
          "some new answer text.".toList).2, e = Ev.speakEnd)) :=
  ⟨rfl, C9_speak_disabled (fun _ => UnitOutcome.ok) engineMuted
    "some new answer text.".toList rfl⟩

lemma mem_addKey (seen : List Str) (k k' : Str) (h : k ∈ seen) :
    k ∈ addKey seen k' := by
  unfold addKey
  split
  · exact h
  · exact List.mem_append_left _ h

lemma mem_addKey_self (seen : List Str) (k : Str) : k ∈ addKey seen k := by
  unfold addKey
  split
  · assumption
  · exact List.mem_append_right _ (List.mem_singleton.mpr rfl)

lemma foldl_notify_seen (l : List Alert) :
    ∀ (acc : List Str × List Alert) (k : Str), k ∈ acc.1 →
    k ∈ (l.foldl notifyStep acc).1 := by
  induction l with
  | nil => intro acc k h; exact h
  | cons a rest ih =>
    intro acc k h
    rw [List.foldl_cons]
    refine ih _ k ?_
    unfold notifyStep
    split <;> exact mem_addKey _ _ _ h

lemma foldl_notify_adds (l : List Alert) :
    ∀ (acc : List Str × List Alert) (a : Alert), a ∈ l →
    alertKey a ∈ (l.foldl notifyStep acc).1 := by
  induction l with
  | nil => intro acc a h; exact absurd h (List.not_mem_nil a)
  | cons b rest ih =>
    intro acc a h
    rw [List.foldl_cons]
    rcases List.mem_cons.mp h with rfl | h
    · refine foldl_notify_seen rest _ _ ?_
      unfold notifyStep
      split <;> exact mem_addKey_self _ _
    · exact ih _ a h

lemma foldl_notify_shown (l : List Alert) :
    ∀ (acc : List Str × List Alert) (x : Alert),
    x ∈ (l.foldl notifyStep acc).2 → x ∈ acc.2 ∨ x ∈ l := by
  induction l with
  | nil => intro acc x h; exact Or.inl h
  | cons b rest ih =>
    intro acc x h
    rw [List.foldl_cons] at h
    rcases ih _ x h with h2 | h2
    · unfold notifyStep at h2
      split at h2
      · rcases List.mem_append.mp h2 with h3 | h3
        · exact Or.inl h3
        · exact Or.inr (List.mem_cons.mpr (Or.inl (List.mem_singleton.mp h3)))
      · exact Or.inl h2
    · exact Or.inr (List.mem_cons_of_mem b h2)

lemma checkAlerts_seen_mem (seen : List Str) (alerts : List Alert) (a : Alert)
    (ha : a ∈ alerts) : alertKey a ∈ (checkAlerts seen alerts).1 := by
  unfold checkAlerts
  rw [if_neg (by simp [List.isEmpty_iff]; rintro rfl; exact List.not_mem_nil a ha)]
  by_cases hk : alertKey a ∈ seen
  · exact foldl_notify_seen _ _ _ hk
  · refine foldl_notify_adds _ _ a ?_
    rw [List.mem_filter]
    exact ⟨ha, by simpa using hk⟩

lemma checkAlerts_old_key (seen : List Str) (alerts : List Alert) (k : Str)
    (hk : k ∈ seen) (hne : alerts ≠ []) :
    k ∈ (checkAlerts seen alerts).1 ∧
    countKey k (checkAlerts seen alerts).2 = 0 := by
  unfold checkAlerts
  rw [if_neg (by simpa [List.isEmpty_iff] using hne)]
  refine ⟨foldl_notify_seen _ _ _ hk, ?_⟩
  unfold countKey
  rw [List.length_eq_zero, List.filter_eq_nil_iff]
  intro x hx
  rcases foldl_notify_shown _ _ x hx with h2 | h2
  · exact absurd h2 (List.not_mem_nil x)
  · rw [List.mem_filter] at h2
    have : alertKey x ∉ seen := by simpa using h2.2
    simp only [decide_eq_true_eq]
    intro hxk
    exact this (hxk ▸ hk)

lemma processCycles_old_key (cycles : List (List Alert)) :
    ∀ (seen : List Str) (k : Str), k ∈ seen → (∀ c ∈ cycles, c ≠ []) →
    countKey k (processCycles seen cycles).2 = 0 := by
  induction cycles with
  | nil => intro seen k _ _; simp [processCycles, countKey]
  | cons c rest ih =>
    intro seen k hk hne
    obtain ⟨h1, h2⟩ :=
      checkAlerts_old_key seen c k hk (hne c (List.mem_cons_self c rest))
    unfold processCycles
    dsimp only
    unfold countKey at *
    rw [List.filter_append, List.length_append, h2]
    simpa using ih _ k h1 (fun d hd => hne d (List.mem_cons_of_mem c hd))

/-- Claim C5: a dedup key should trigger at most one notification per
active period; in particular the identical alert posted twice within one
poll cycle should notify exactly once.  False: `checkAlerts` computes
`newAlerts` by filtering against the seen-set before recording anything
(speech.js:1137-1140), so a duplicate inside a single poll response passes
the filter twice and `showAlert` fires twice. -/
theorem C5_counterexample :
    countKey (alertKey diskAlert) (checkAlerts [] [diskAlert, diskAlert]).2 = 2 ∧
    (checkAlerts [] [diskAlert, diskAlert]).2.length = 2 := by
  constructor
  · decide
  · decide

/-- Claim C5 (amended): a dedup key already in the seen-set never
re-notifies, so across successive nonempty poll cycles a recurring alert
notifies exactly once, and after an empty poll cycle clears the seen-set it
notifies exactly once more; but duplicates of an unseen key within a single
poll response each notify, so the identical alert twice in one response
notifies twice. -/
theorem C5_amended (a : Alert) (h : a.severity = "critical".toList) :
    countKey (alertKey a) (processCycles [] [[a], [a]]).2 = 1 ∧
    countKey (alertKey a) (processCycles [] [[a], [], [a]]).2 = 2 ∧
    countKey (alertKey a) (checkAlerts [] [a, a]).2 = 2 := by
  have hone : checkAlerts [] [a] = ([alertKey a], [a]) := by
    unfold checkAlerts notifyStep addKey
    simp [h]
  have hdup : checkAlerts [] [a, a] = ([alertKey a], [a, a]) := by
    unfold checkAlerts notifyStep addKey
    simp [h]
  have hseen : checkAlerts [alertKey a] [a] = ([alertKey a], []) := by
    unfold checkAlerts notifyStep addKey
    simp
  have hkey : countKey (alertKey a) [a] = 1 := by
    unfold countKey
    simp
  refine ⟨?_, ?_, ?_⟩
  · simp [processCycles, hone, hseen, countKey]
  · have hempty : checkAlerts [alertKey a] [] = ([], []) := by
      unfold checkAlerts
      simp
    simp [processCycles, hone, hempty, countKey]
  · rw [hdup]
    unfold countKey
    simp


/-- Witness for `C5_amended` at a concrete critical alert. -/
theorem C5_amended_witness :
    diskAlert.severity = "critical".toList ∧
    (countKey (alertKey diskAlert) (processCycles [] [[diskAlert], [diskAlert]]).2 = 1 ∧
      countKey (alertKey diskAlert)
        (processCycles [] [[diskAlert], [], [diskAlert]]).2 = 2 ∧
      countKey (alertKey diskAlert) (checkAlerts [] [diskAlert, diskAlert]).2 = 2) :=
  ⟨by decide, C5_amended diskAlert (by decide)⟩

/-- Claim C10: the dedup key ignores severity; every alert of a nonempty
poll response ends up in the seen-set whatever its severity; a key already
seen is never notified again while poll cycles stay nonempty; hence an
alert first polled with a non-notifying severity never notifies for the
rest of the active period, even if later polls report the same kind and
message as critical or warning. -/
theorem C10_dedup :
    (∀ a b : Alert, a.type = b.type → a.message = b.message →
      alertKey a = alertKey b) ∧
    (∀ (seen : List Str) (alerts : List Alert) (a : Alert), a ∈ alerts →
      alertKey a ∈ (checkAlerts seen alerts).1) ∧
    (∀ (seen : List Str) (alerts : List Alert) (k : Str), k ∈ seen →
      alerts ≠ [] →
      k ∈ (checkAlerts seen alerts).1 ∧
      countKey k (checkAlerts seen alerts).2 = 0) ∧
    (∀ (a : Alert) (rest : List (List Alert)),
      a.severity ≠ "critical".toList → a.severity ≠ "warning".toList →
      (∀ c ∈ rest, c ≠ []) →
      countKey (alertKey a) (processCycles [] ([a] :: rest)).2 = 0) := by
  refine ⟨?_, ?_, ?_, ?_⟩
  · intro a b ht hm
    unfold alertKey
    rw [ht, hm]
  · exact checkAlerts_seen_mem
  · exact checkAlerts_old_key
  · intro a rest hcrit hwarn hne
    have hfirst : checkAlerts [] [a] = ([alertKey a], []) := by
      unfold checkAlerts notifyStep addKey
      simp
      exact ⟨fun h => hcrit h, fun h => hwarn h⟩
    unfold processCycles
    dsimp only
    rw [hfirst]
    simpa [countKey] using processCycles_old_key rest [alertKey a] (alertKey a)
      (List.mem_singleton.mpr rfl) hne

/-- Witness for `C10_dedup`: the alert first polled as info never notifies
even when the next poll reports the same kind and message as critical. -/
theorem C10_dedup_witness :
    (diskAlertInfo.severity ≠ "critical".toList ∧
      diskAlertInfo.severity ≠ "warning".toList ∧
      (∀ c ∈ [[diskAlert]], c ≠ ([] : List Alert))) ∧
    countKey (alertKey diskAlertInfo)
      (processCycles [] ([diskAlertInfo] :: [[diskAlert]])).2 = 0 :=
  ⟨⟨by decide, by decide, by decide⟩,
    C10_dedup.2.2.2 diskAlertInfo [[diskAlert]] (by decide) (by decide) (by decide)⟩

/-- Claim C6: every transport close should be followed by exactly one
reconnect scheduled at the fixed delay.  False: `scheduleReconnect`
(shortcuts.ts:116-125) gives up once `reconnectAttempts` reaches
`maxReconnectAttempts` (10), so the state reached by ten consecutive closes
answers the eleventh close with no reconnect timer at all. -/
theorem C6_counterexample :
    (wsOnClose^[10] wsInit).reconnectAttempts = maxReconnectAttempts ∧
    (wsOnClose (wsOnClose^[10] wsInit)).reconnectTimer = none := by
  constructor
  · decide
  · decide

/-- Claim C6 (amended): a transport close schedules exactly one reconnect
at the fixed (non-exponential) delay while the attempt counter is below
`maxReconnectAttempts`, incrementing the counter; at the cap it clears any
pending timer and schedules nothing; a subsequent open always resets the
counter to zero. -/
theorem C6_amended (s : WSState) :
    (wsOnClose s).reconnectTimer =
      (if s.reconnectAttempts < maxReconnectAttempts
        then some reconnectInterval else none) ∧
    (wsOnClose s).reconnectAttempts =
      (if s.reconnectAttempts < maxReconnectAttempts
        then s.reconnectAttempts + 1 else s.reconnectAttempts) ∧
    (wsOnClose s).isConnected = false ∧
    (wsOnOpen s).reconnectAttempts = 0 ∧
    (wsOnOpen s).isConnected = true := by
  obtain ⟨n, tmr, conn⟩ := s
  unfold wsOnClose scheduleReconnect wsOnOpen
  by_cases h : n < maxReconnectAttempts <;> simp [h]

/-- Claim C7: manual dictation and wake-word listening should be mutually
exclusive in every reachable state.  False: after `startListening` stops
the wake session and manual recognition starts, the wake session's `onend`
handler (speech.js:103-115) checks only `wakeWordEnabled` and `isSpeaking`
-- not the manual session -- so its 100ms timer restarts wake-word
listening while the manual session is still listening. -/
theorem C7_counterexample :
    (runArb arbInit dualTrace).isListening = true ∧
    (runArb arbInit dualTrace).wakeActive = true := by
  constructor
  · decide
  · decide

/-- Claim C7 (amended): `startListening` does stop any active wake-word
session before starting the manual one (the wake stop always precedes the
manual start, and with wake word enabled the calls are exactly stop then
start); but the wake-word `onend` handler arms its restart timer whenever
wake word is enabled and the engine is not speaking, without consulting the
manual session, so the restart yields a state where both sessions are
listening. -/
theorem C7_amended :
    (∀ s : ArbState, wakeStopPrecedes (startListeningActions s) = true) ∧
    (∀ s : ArbState, s.recognitionAvailable = true → s.isListening = false →
      s.wakeWordEnabled = true →
      startListeningActions s = [RAction.wakeStop, RAction.manualStart]) ∧
    (∀ s : ArbState, s.wakeWordEnabled = true → s.isSpeaking = false →
      (stepArb s AEvent.wakeOnend).wakeRestartPending = true) ∧
    ((runArb arbInit dualTrace).isListening = true ∧
      (runArb arbInit dualTrace).wakeActive = true) := by
  refine ⟨?_, ?_, ?_, by decide, by decide⟩
  · intro s
    obtain ⟨ra, il, sp, we, wa, mp, rp⟩ := s
    cases ra <;> cases il <;> cases we <;> rfl
  · intro s h1 h2 h3
    obtain ⟨ra, il, sp, we, wa, mp, rp⟩ := s
    simp only at h1 h2 h3
    subst h1
    subst h2
    subst h3
    rfl
  · intro s h1 h2
    obtain ⟨ra, il, sp, we, wa, mp, rp⟩ := s
    simp only at h1 h2
    subst h1
    subst h2
    simp [stepArb]

/-- Witness for `C7_amended` at the concrete enabled-idle state. -/
theorem C7_amended_witness :
    (arbWake.recognitionAvailable = true ∧ arbWake.isListening = false ∧
      arbWake.wakeWordEnabled = true ∧ arbWake.isSpeaking = false) ∧
    startListeningActions arbWake = [RAction.wakeStop, RAction.manualStart] ∧
    (stepArb arbWake AEvent.wakeOnend).wakeRestartPending = true :=
  ⟨⟨rfl, rfl, rfl, rfl⟩,
    C7_amended.2.1 arbWake rfl rfl rfl,
    C7_amended.2.2.1 arbWake rfl rfl⟩

/-- Claim C8: a permission-denied wake-word error should disable the
feature and surface the error to the caller once.  False: on "not-allowed"
the handler (speech.js:117-130) merely skips the restart; it leaves
`wakeWordEnabled` untouched, logs to the console, and never calls the
`onError` callback. -/
theorem C8_counterexample :
    (wakeOnError arbWake "not-allowed".toList).1.wakeWordEnabled = true ∧
    (wakeOnError arbWake "not-allowed".toList).2.surfacedToCaller = false ∧
    (wakeOnError arbWake "not-allowed".toList).2.restartDelay = none := by
  refine ⟨?_, ?_, ?_⟩
  · decide
  · decide
  · decide

/-- Claim C8 (amended): no-speech and aborted restart silently (no log,
1000ms timer when wake word is enabled); not-allowed schedules no restart
but changes no state, is logged, and is never surfaced through the error
callback; every other error is logged and restarts after 1000ms when wake
word is enabled. -/
theorem C8_amended (s : ArbState) (err : Str) :
    ((err = "no-speech".toList ∨ err = "aborted".toList) →
      (wakeOnError s err).2.logged = false ∧
      (wakeOnError s err).2.restartDelay =
        (if s.wakeWordEnabled = true then some 1000 else none)) ∧
    (err = "not-allowed".toList →
      (wakeOnError s err).2.restartDelay = none ∧
      (wakeOnError s err).1 = s ∧
      (wakeOnError s err).2.surfacedToCaller = false ∧
      (wakeOnError s err).2.logged = true) ∧
    (err ≠ "no-speech".toList → err ≠ "aborted".toList →
      err ≠ "not-allowed".toList →
      (wakeOnError s err).2.logged = true ∧
      (wakeOnError s err).2.restartDelay =
        (if s.wakeWordEnabled = true then some 1000 else none)) := by
  refine ⟨?_, ?_, ?_⟩
  · rintro (rfl | rfl) <;>
      · refine ⟨rfl, ?_⟩
        unfold wakeOnError
        by_cases h : s.wakeWordEnabled = true <;> simp [h]
  · rintro rfl
    refine ⟨?_, rfl, rfl, rfl⟩
    unfold wakeOnError
    simp
  · intro h1 h2 h3
    refine ⟨?_, ?_⟩
    · unfold wakeOnError
      simp
      exact ⟨fun h => h1 h, fun h => h2 h⟩
    · unfold wakeOnError
      by_cases h : s.wakeWordEnabled = true <;> simp [h]
      exact fun hx => h3 hx

/-- Witness for `C8_amended` applying the not-allowed and other-error
branches at concrete inputs. -/
theorem C8_amended_witness :
    ((wakeOnError arbWake "not-allowed".toList).2.restartDelay = none ∧
      (wakeOnError arbWake "not-allowed".toList).1 = arbWake ∧
      (wakeOnError arbWake "not-allowed".toList).2.surfacedToCaller = false ∧
      (wakeOnError arbWake "not-allowed".toList).2.logged = true) ∧
    ((wakeOnError arbWake "network".toList).2.logged = true ∧
      (wakeOnError arbWake "network".toList).2.restartDelay =
        (if arbWake.wakeWordEnabled = true then some 1000 else none)) :=
  ⟨(C8_amended arbWake "not-allowed".toList).2.1 rfl,
    (C8_amended arbWake "network".toList).2.2 (by decide) (by decide) (by decide)⟩

end Jarvis
